import Mathlib

/-!
# risa: signature check, session resolution and event gating

A shallow embedding of `risa.go` (the `/track` handler of the analytics collector)
and the properties of its specification.

* Go strings are byte sequences: `GoString = List (Fin 256)`; Go's `<` on strings is the
  lexicographic order on bytes, which is the order Mathlib puts on `List (Fin 256)`.
* `url.Values` (a Go map) is the list of its entries in the order in which `range` visits
  them; a well-formed map has pairwise different keys.
* The collaborators (cookie store, database, response writer) are modelled by the calls
  made to them, recorded in a trace, and by the results they hand back, taken as inputs.
* `crypto/hmac`, `crypto/sha256` and `encoding/base64` are modelled from FIPS 180-4,
  RFC 2104 and RFC 4648 on natural numbers with explicit `% 2^32`.
-/

namespace Risa

set_option maxRecDepth 100000

/-! ## Strings -/

/-- A Go `string`: a sequence of bytes. -/
abbrev GoString := List (Fin 256)

/-- The Go string literal with the given text (its UTF-8 bytes). -/
def str (s : String) : GoString :=
  (s.data.flatMap String.utf8EncodeChar).map fun b => Fin.ofNat b.toNat

/-! ## SHA-256, HMAC and base64 (Go standard library) -/

/-- Rotate the 32-bit word `x` right by `n` bits. -/
def rotr32 (x n : Nat) : Nat := ((x >>> n) ||| (x <<< (32 - n))) % 2^32

/-- The 64 round constants of SHA-256. -/
def sha256K : List Nat := [
  0x428a2f98, 0x71374491, 0xb5c0fbcf, 0xe9b5dba5, 0x3956c25b, 0x59f111f1, 0x923f82a4, 0xab1c5ed5,
  0xd807aa98, 0x12835b01, 0x243185be, 0x550c7dc3, 0x72be5d74, 0x80deb1fe, 0x9bdc06a7, 0xc19bf174,
  0xe49b69c1, 0xefbe4786, 0x0fc19dc6, 0x240ca1cc, 0x2de92c6f, 0x4a7484aa, 0x5cb0a9dc, 0x76f988da,
  0x983e5152, 0xa831c66d, 0xb00327c8, 0xbf597fc7, 0xc6e00bf3, 0xd5a79147, 0x06ca6351, 0x14292967,
  0x27b70a85, 0x2e1b2138, 0x4d2c6dfc, 0x53380d13, 0x650a7354, 0x766a0abb, 0x81c2c92e, 0x92722c85,
  0xa2bfe8a1, 0xa81a664b, 0xc24b8b70, 0xc76c51a3, 0xd192e819, 0xd6990624, 0xf40e3585, 0x106aa070,
  0x19a4c116, 0x1e376c08, 0x2748774c, 0x34b0bcb5, 0x391c0cb3, 0x4ed8aa4a, 0x5b9cca4f, 0x682e6ff3,
  0x748f82ee, 0x78a5636f, 0x84c87814, 0x8cc70208, 0x90befffa, 0xa4506ceb, 0xbef9a3f7, 0xc67178f2]

/-- The initial hash value of SHA-256. -/
def sha256Init : List Nat :=
  [0x6a09e667, 0xbb67ae85, 0x3c6ef372, 0xa54ff53a, 0x510e527f, 0x9b05688c, 0x1f83d9ab, 0x5be0cd19]

/-- One round of the compression function on the working variables `a .. h`, with round
constant `kw.1` and schedule word `kw.2`. -/
def sha256Round (st : List Nat) (kw : Nat × Nat) : List Nat :=
  match st with
  | [a, b, c, d, e, f, g, h] =>
    let s1 := rotr32 e 6 ^^^ rotr32 e 11 ^^^ rotr32 e 25
    let ch := (e &&& f) ^^^ ((e ^^^ 0xffffffff) &&& g)
    let t1 := (h + s1 + ch + kw.1 + kw.2) % 2^32
    let s0 := rotr32 a 2 ^^^ rotr32 a 13 ^^^ rotr32 a 22
    let maj := (a &&& b) ^^^ (a &&& c) ^^^ (b &&& c)
    let t2 := (s0 + maj) % 2^32
    [(t1 + t2) % 2^32, a, b, c, (d + t1) % 2^32, e, f, g]
  | _ => st

/-- The message schedule, most recent word first: `n` more words are added to `w`. -/
def sha256Schedule : Nat → List Nat → List Nat
  | 0, w => w
  | n + 1, w =>
    let w2 := w.getD 1 0
    let w7 := w.getD 6 0
    let w15 := w.getD 14 0
    let w16 := w.getD 15 0
    let s0 := rotr32 w15 7 ^^^ rotr32 w15 18 ^^^ (w15 >>> 3)
    let s1 := rotr32 w2 17 ^^^ rotr32 w2 19 ^^^ (w2 >>> 10)
    sha256Schedule n (((w16 + s0 + w7 + s1) % 2^32) :: w)

/-- Group bytes four by four into big-endian 32-bit words. -/
def beWords : List Nat → List Nat
  | a :: b :: c :: d :: rest => (((a * 256 + b) * 256 + c) * 256 + d) :: beWords rest
  | _ => []

/-- The compression function: the hash value `h` updated with one 64-byte block. -/
def sha256Block (h : List Nat) (block : List Nat) : List Nat :=
  let w := (sha256Schedule 48 (beWords block).reverse).reverse
  let r := (sha256K.zip w).foldl sha256Round h
  List.zipWith (fun x y => (x + y) % 2^32) h r

/-- The `n` low bytes of `x`, most significant first. -/
def beBytes (n : Nat) (x : Nat) : List Nat :=
  (List.range n).reverse.map fun i => (x >>> (8 * i)) % 256

/-- SHA-256 padding: a `0x80` byte, zero bytes up to 56 modulo 64, the bit length on 8 bytes. -/
def sha256Pad (msg : List Nat) : List Nat :=
  let l := msg.length
  msg ++ [0x80] ++ List.replicate ((119 - l % 64) % 64) 0 ++ beBytes 8 ((8 * l) % 2^64)

/-- Cut a list into blocks of 64 bytes (`n` bounds the number of blocks). -/
def chunks64 : Nat → List Nat → List (List Nat)
  | 0, _ => []
  | n + 1, l => if l = [] then [] else l.take 64 :: chunks64 n (l.drop 64)

/-- SHA-256 of a byte sequence: the 32 bytes of the digest. -/
def sha256 (msg : List Nat) : List Nat :=
  let p := sha256Pad msg
  ((chunks64 p.length p).foldl sha256Block sha256Init).flatMap (beBytes 4)

/-- HMAC with SHA-256 (block size 64): a key longer than a block is hashed first. -/
def hmacSha256 (key msg : List Nat) : List Nat :=
  let k := if key.length > 64 then sha256 key else key
  let k := k ++ List.replicate (64 - k.length) 0
  sha256 (k.map (· ^^^ 0x5c) ++ sha256 (k.map (· ^^^ 0x36) ++ msg))

/-- The alphabet of the standard base64 encoding. -/
def b64Alphabet : GoString :=
  str "ABCDEFGHIJKLMNOPQRSTUVWXYZabcdefghijklmnopqrstuvwxyz0123456789+/"

/-- The base64 character of the 6-bit value `i`. -/
def b64Char (i : Nat) : Fin 256 := b64Alphabet.getD i 0

/-- The encoding `base64.StdEncoding.EncodeToString`: padded with `=` (byte 61). -/
def base64Std : List Nat → GoString
  | a :: b :: c :: rest =>
    b64Char (a >>> 2) :: b64Char ((a % 4) * 16 + (b >>> 4)) ::
      b64Char ((b % 16) * 4 + (c >>> 6)) :: b64Char (c % 64) :: base64Std rest
  | [a, b] =>
    [b64Char (a >>> 2), b64Char ((a % 4) * 16 + (b >>> 4)), b64Char ((b % 16) * 4), 61]
  | [a] => [b64Char (a >>> 2), b64Char ((a % 4) * 16), 61, 61]
  | [] => []

/-- The function `computeHmac256` of `risa.go`: the base64 text of the HMAC-SHA256 of
`message` under the key `secret`. -/
def computeHmac256 (message secret : GoString) : GoString :=
  base64Std (hmacSha256 (secret.map Fin.val) (message.map Fin.val))

/-! ## Query parameters and `checkSignature` -/

/-- The type `url.Values`, a Go `map[string][]string`: its entries, in the order in which
a `range` loop visits them. -/
abbrev Values := List (GoString × List GoString)

/-- The keys of the map, in visiting order. -/
def Values.keys (v : Values) : List GoString := v.map Prod.fst

/-- The method `Values.Get`: the first value of `key`, or `""` when there is none. -/
def Values.Get (v : Values) (key : GoString) : GoString :=
  match v.lookup key with
  | some (x :: _) => x
  | _ => []

/-- The name of the signature parameter, `"s"`. -/
def sigKey : GoString := str "s"

/-- One iteration of the loop `for k, _ := range query`: `mk[i] = k` unless `k` is `"s"`,
then `i++`. The state is the slice `mk` and the index `i`. -/
def rangeStep (st : List GoString × Nat) (e : GoString × List GoString) : List GoString × Nat :=
  (if e.1 ≠ sigKey then st.1.set st.2 e.1 else st.1, st.2 + 1)

/-- The slice `mk` after the loop: it starts as `make([]string, len(query))`. -/
def mkAfterLoop (query : Values) : List GoString :=
  (query.foldl rangeStep (List.replicate query.length [], 0)).1

/-- The call `sort.Strings`: the list in ascending byte-wise order. -/
def sortStrings (l : List GoString) : List GoString := l.insertionSort (· ≤ ·)

/-- The string `strToSig` that `checkSignature` builds and signs: for each `key` of the sorted
`mk`, `key` and then `query.Get(key)` are appended. -/
def strToSig (query : Values) : GoString :=
  (sortStrings (mkAfterLoop query)).foldl (fun acc key => acc ++ key ++ query.Get key) []

/-- The function `checkSignature` of `risa.go`; the global `secret` is a parameter. -/
def checkSignature (secret : GoString) (query : Values) : Bool :=
  if secret = [] then true
  else
    let sig := query.Get sigKey
    if sig = [] then false
    else
      let hash := computeHmac256 (strToSig query) secret
      hash == sig

/-- The canonical string of the specification: all keys except `"s"`, sorted in ascending
byte-wise order, each followed by its value, without delimiter. -/
def canonicalString (params : Values) : GoString :=
  (sortStrings (params.keys.filter (· ≠ sigKey))).flatMap fun key => key ++ params.Get key

/-! ## Sessions, collaborators and `TrackEvent` -/

/-- The struct `Event` of `risa.go`. -/
structure Event where
  SessionKey : GoString
  Category : GoString
  Action : GoString
  deriving DecidableEq, Repr

/-- A dynamically typed value of `session.Values` (a Go `interface{}`): a string, or a
value of another type, on which the type assertion `val.(string)` panics. -/
inductive Iface where
  | string (s : GoString)
  | other
  deriving DecidableEq, Repr

/-- The map `session.Values` of a gorilla session, as the list of its entries; the keys the
program uses are strings. -/
abbrev SessionValues := List (GoString × Iface)

/-- The key `"session_key"` under which the session identifier is kept in the cookie. -/
def sessionKeyName : GoString := str "session_key"

/-- The map assignment `values[key] = val`. -/
def SessionValues.set (values : SessionValues) (key : GoString) (val : Iface) : SessionValues :=
  (key, val) :: values.filter fun e => e.1 ≠ key

/-- An inbound request, as far as `TrackEvent` reads it. `session` is what
`store.Get(r, "_risa")` yields for the request: `none` when it returns an error (the cookie
does not decode), otherwise the `Values` of the session (empty when the request carries no
`_risa` cookie). -/
structure Request where
  query : Values
  userAgent : GoString
  session : Option SessionValues

/-- The process configuration and the database, as far as the handler depends on them:
the globals `secret` and `allowedOrigin`, and the outcome of the `INSERT ... RETURNING id`
into `risa_sessions` should it be run (`none`: the query fails; `some id`: it returns `id`). -/
structure Env where
  secret : GoString
  allowedOrigin : GoString
  insertResult : Option Int

/-- The calls the handler makes to its collaborators, in the order it makes them. -/
inductive Effect where
  /-- The call `store.Get(r, "_risa")`: the cookie is read. -/
  | sessionGet
  /-- The `INSERT INTO risa_sessions` with the given user agent. -/
  | sessionInsert (userAgent : GoString)
  /-- The call `session.Save(r, w)` with the given values: the cookie is written. -/
  | sessionSave (values : SessionValues)
  /-- The statement `go storeEvent(event)`. -/
  | goStoreEvent (event : Event)
  /-- The call `w.Header().Set(key, value)`. -/
  | headerSet (key value : GoString)
  /-- The call `w.WriteHeader(status)`. -/
  | writeHeader (status : Nat)
  deriving DecidableEq, Repr

/-- The call `strconv.FormatInt(id, 10)`: the decimal text of `id`. -/
def formatInt (id : Int) : GoString :=
  match id with
  | Int.ofNat n => (Nat.toDigits 10 n).map fun c => Fin.ofNat c.toNat
  | Int.negSucc n => 45 :: (Nat.toDigits 10 (n + 1)).map fun c => Fin.ofNat c.toNat

/-- The function `storeSession` of `risa.go`: the returned string and the calls made. -/
def storeSession (env : Env) (r : Request) : GoString × List Effect :=
  match env.insertResult with
  | none => ([], [Effect.sessionInsert r.userAgent])
  | some id => (formatInt id, [Effect.sessionInsert r.userAgent])

/-- The function `getSessionKey` of `risa.go`: the returned string (`none` when the type
assertion `val.(string)` panics) and the calls made. -/
def getSessionKey (env : Env) (r : Request) : Option GoString × List Effect :=
  match r.session with
  | none => (some [], [Effect.sessionGet])
  | some values =>
    match values.lookup sessionKeyName with
    | some (Iface.string s) => (some s, [Effect.sessionGet])
    | some Iface.other => (none, [Effect.sessionGet])
    | none =>
      let stored := storeSession env r
      (some stored.1, [Effect.sessionGet] ++ stored.2 ++
        [Effect.sessionSave (values.set sessionKeyName (Iface.string stored.1))])

/-- What a run of the handler leaves behind: the calls made, and whether it ended in a panic. -/
structure Outcome where
  trace : List Effect
  panicked : Bool
  deriving DecidableEq, Repr

/-- The handler `TrackEvent` of `risa.go`. -/
def TrackEvent (env : Env) (r : Request) : Outcome :=
  let query := r.query
  if !checkSignature env.secret query then
    ⟨[Effect.writeHeader 403], false⟩
  else
    let category := query.Get (str "c")
    let action := query.Get (str "a")
    match getSessionKey env r with
    | (none, calls) => ⟨calls, true⟩
    | (some sessionKey, calls) =>
      let dispatch :=
        if sessionKey ≠ [] then
          [Effect.goStoreEvent ⟨sessionKey, category, action⟩]
        else []
      let cors :=
        if env.allowedOrigin ≠ [] then
          [Effect.headerSet (str "Access-Control-Allow-Origin") env.allowedOrigin,
           Effect.headerSet (str "Access-Control-Allow-Credentials") (str "true"),
           Effect.headerSet (str "Vary") (str "Origin")]
        else []
      ⟨calls ++ dispatch ++ cors ++ [Effect.writeHeader 200], false⟩

/-- The events dispatched in a trace, in order. -/
def dispatched (trace : List Effect) : List Event :=
  trace.filterMap fun e => match e with
    | Effect.goStoreEvent ev => some ev
    | _ => none

/-- The statuses written in a trace, in order. -/
def statuses (trace : List Effect) : List Nat :=
  trace.filterMap fun e => match e with
    | Effect.writeHeader st => some st
    | _ => none

/-- The session inserts made in a trace. -/
def inserts (trace : List Effect) : List GoString :=
  trace.filterMap fun e => match e with
    | Effect.sessionInsert ua => some ua
    | _ => none

/-- The cookie writes made in a trace. -/
def cookieWrites (trace : List Effect) : List SessionValues :=
  trace.filterMap fun e => match e with
    | Effect.sessionSave values => some values
    | _ => none

/-! ## Auxiliary definitions for the statements -/

/-- The content of the slot of `mk` that the loop leaves for the key `k`: the key itself,
or the empty string of `make` when the key is `"s"`. -/
def slotOf (k : GoString) : GoString := if k ≠ sigKey then k else []

/-- The query in which the value of `"s"` is replaced by `sig`; every other parameter, and
the visiting order, are unchanged. -/
def Values.setSig (v : Values) (sig : GoString) : Values :=
  v.map fun e => if e.1 = sigKey then (e.1, [sig]) else e

/-- The signature of the specification for the parameters `params` under the secret `key`:
the MAC of their canonical string. -/
def Sign (params : Values) (key : GoString) : GoString :=
  computeHmac256 (canonicalString params) key

/-- The query made of the parameters `params` and of `s = sig`. -/
def signedQuery (params : Values) (sig : GoString) : Values :=
  params ++ [(sigKey, [sig])]

/-- The secret of the scenarios of the specification. -/
def sekret : GoString := str "sekret"

/-- The parameters `a=users&c=login`, whose canonical string is `ausersclogin`. -/
def loginParams : Values := [(str "c", [str "login"]), (str "a", [str "users"])]

/-- The parameters `=x&a=users&c=login`: the first one has the empty name. -/
def emptyNameParams : Values :=
  [([], [str "x"]), (str "a", [str "users"]), (str "c", [str "login"])]

/-- The parameter `=x` alone. -/
def onlyEmptyName : Values := [([], [str "x"])]

/-- The query `a=users&c=login&s=...` signed under `sekret`, visited as `c`, `a`, `s`. -/
def loginQuery : Values :=
  signedQuery loginParams (str "2vo7W6hQw5YegkoFE78LAmzCPY4GA0Np8jD/3KCzcYY=")

/-- The query `loginQuery` visited in another order: `s`, `a`, `c`. -/
def loginQueryReordered : Values :=
  [(sigKey, [str "2vo7W6hQw5YegkoFE78LAmzCPY4GA0Np8jD/3KCzcYY="]),
   (str "a", [str "users"]), (str "c", [str "login"])]

/-- A request `/track?c=user&a=login` without signature and without cookie. -/
def unsignedRequest : Request :=
  ⟨[(str "c", [str "user"]), (str "a", [str "login"])], str "Mozilla/5.0", some []⟩

/-- A deployment with the secret `sekret`, no allowed origin, whose next session insert
returns the identifier 42. -/
def sekretEnv : Env := ⟨sekret, [], some 42⟩

/-- A deployment without secret whose next session insert returns the identifier 42. -/
def openEnv : Env := ⟨[], str "https://example.com", some 42⟩

/-- A deployment without secret whose session insert fails. -/
def failingEnv : Env := ⟨[], [], none⟩

/-- The request `unsignedRequest` sent again with the cookie that holds session 42. -/
def returningRequest : Request :=
  ⟨[(str "c", [str "user"]), (str "a", [str "login"])], str "Mozilla/5.0",
    some [(sessionKeyName, Iface.string (str "42"))]⟩

/-! ## The signing input -/

theorem sigKey_ne_nil : sigKey ≠ [] := by decide

/-- The order on Go strings is the lexicographic order on bytes: the empty string comes
first, and two non-empty strings compare by their first bytes, then by their tails. -/
theorem goString_le_iff (a b : Fin 256) (l₁ l₂ : GoString) :
    ([] : GoString) ≤ l₁ ∧ ¬ (a :: l₁ ≤ []) ∧
      (a :: l₁ ≤ b :: l₂ ↔ a < b ∨ (a = b ∧ l₁ ≤ l₂)) := by
  refine ⟨List.nil_le, not_le.2 (List.nil_lt_cons a l₁), ?_⟩
  constructor
  · intro h
    rcases lt_trichotomy a b with hab | hab | hab
    · exact Or.inl hab
    · subst hab
      refine Or.inr ⟨rfl, ?_⟩
      rcases h.lt_or_eq with hlt | heq
      · exact le_of_lt (List.Lex.cons_iff.1 hlt)
      · exact le_of_eq (List.cons.inj heq).2
    · exact absurd h (not_le.2 (List.Lex.rel hab))
  · rintro (hab | ⟨rfl, hl⟩)
    · exact le_of_lt (List.Lex.rel hab)
    · rcases hl.lt_or_eq with hlt | heq
      · exact le_of_lt (List.Lex.cons hlt)
      · rw [heq]

/-- The result of `sortStrings` is its input rearranged in ascending order. -/
theorem sortStrings_spec (l : List GoString) :
    (sortStrings l).Perm l ∧ (sortStrings l).Sorted (· ≤ ·) :=
  ⟨List.perm_insertionSort _ l, List.sorted_insertionSort _ l⟩

theorem slotOf_ne_sigKey (k : GoString) : slotOf k ≠ sigKey := by
  unfold slotOf
  split
  · assumption
  · exact fun h => sigKey_ne_nil h.symm

theorem foldl_rangeStep (rest : Values) (done : List GoString) :
    (rest.foldl rangeStep (done ++ List.replicate rest.length [], done.length)).1
      = done ++ rest.keys.map slotOf := by
  induction rest generalizing done with
  | nil => simp [Values.keys]
  | cons e rest ih =>
    have step : rangeStep (done ++ List.replicate (rest.length + 1) [], done.length) e
        = ((done ++ [slotOf e.1]) ++ List.replicate rest.length [],
            (done ++ [slotOf e.1]).length) := by
      unfold rangeStep slotOf
      by_cases h : e.1 = sigKey <;> simp [h, List.replicate_succ]
    rw [List.foldl_cons, List.length_cons, step, ih]
    simp [Values.keys]

/-- The slice `mk` after the loop holds, slot by slot, the keys in visiting order, with
the empty string in place of `"s"`. -/
theorem mkAfterLoop_eq (query : Values) : mkAfterLoop query = query.keys.map slotOf := by
  have h := foldl_rangeStep query []
  simpa [mkAfterLoop] using h

theorem sortStrings_perm {l₁ l₂ : List GoString} (h : l₁.Perm l₂) :
    sortStrings l₁ = sortStrings l₂ := by
  unfold sortStrings
  exact List.eq_of_perm_of_sorted
    (((List.perm_insertionSort _ l₁).trans h).trans (List.perm_insertionSort _ l₂).symm)
    (List.sorted_insertionSort _ l₁) (List.sorted_insertionSort _ l₂)

/-- Any procedure that returns its input sorted in ascending order returns what
`sortStrings` returns: the model does not depend on the sorting algorithm. -/
theorem sortStrings_unique {l sorted : List GoString} (hp : sorted.Perm l)
    (hs : sorted.Sorted (· ≤ ·)) : sorted = sortStrings l := by
  unfold sortStrings
  exact List.eq_of_perm_of_sorted (hp.trans (List.perm_insertionSort _ l).symm) hs
    (List.sorted_insertionSort _ l)

theorem mem_sortStrings {l : List GoString} {k : GoString} : k ∈ sortStrings l ↔ k ∈ l := by
  unfold sortStrings
  exact (List.perm_insertionSort _ l).mem_iff

/-- The signing input depends only on the set of keys and on what `Get` returns for the
keys other than `"s"`. -/
theorem strToSig_congr {q₁ q₂ : Values} (hk : q₁.keys.Perm q₂.keys)
    (hg : ∀ k, k ≠ sigKey → q₁.Get k = q₂.Get k) : strToSig q₁ = strToSig q₂ := by
  unfold strToSig
  rw [mkAfterLoop_eq, mkAfterLoop_eq, sortStrings_perm (hk.map slotOf)]
  apply List.foldl_ext
  intro acc key hkey
  rw [mem_sortStrings, List.mem_map] at hkey
  obtain ⟨k, _, rfl⟩ := hkey
  rw [hg _ (slotOf_ne_sigKey k)]

theorem lookup_eq_some_iff_mem {β : Type} (l : List (GoString × β))
    (nd : (l.map Prod.fst).Nodup) (k : GoString) (v : β) :
    l.lookup k = some v ↔ (k, v) ∈ l := by
  induction l with
  | nil => simp
  | cons e l ih =>
    obtain ⟨k', v'⟩ := e
    rw [List.map_cons, List.nodup_cons] at nd
    by_cases h : k = k'
    · subst h
      have hnot : ∀ w, (k, w) ∉ l := fun w hw => nd.1 (List.mem_map.2 ⟨(k, w), hw, rfl⟩)
      simp [List.lookup, hnot, eq_comm]
    · have hb : (k == k') = false := by simpa using h
      simp [List.lookup, hb, h, ih nd.2]

theorem lookup_perm {β : Type} {l₁ l₂ : List (GoString × β)} (hp : l₁.Perm l₂)
    (nd : (l₁.map Prod.fst).Nodup) (k : GoString) : l₁.lookup k = l₂.lookup k := by
  have nd₂ : (l₂.map Prod.fst).Nodup := (hp.map Prod.fst).nodup_iff.1 nd
  apply Option.ext
  intro v
  rw [Option.mem_def, Option.mem_def, lookup_eq_some_iff_mem l₁ nd,
    lookup_eq_some_iff_mem l₂ nd₂, hp.mem_iff]

theorem Get_perm {q₁ q₂ : Values} (hp : q₁.Perm q₂) (nd : q₁.keys.Nodup) (k : GoString) :
    q₁.Get k = q₂.Get k := by
  unfold Values.Get
  rw [lookup_perm hp nd k]

theorem foldl_append_eq_flatMap (g : GoString → GoString) (l : List GoString)
    (init : GoString) :
    l.foldl (fun acc key => acc ++ key ++ g key) init = init ++ l.flatMap fun k => k ++ g k := by
  induction l generalizing init with
  | nil => simp
  | cons k l ih =>
    rw [List.foldl_cons, ih, List.flatMap_cons]
    simp [List.append_assoc]

theorem map_slotOf_perm (keys : List GoString) :
    (keys.map slotOf).Perm
      (List.replicate (keys.count sigKey) [] ++ keys.filter (· ≠ sigKey)) := by
  induction keys with
  | nil => simp
  | cons k ks ih =>
    by_cases h : k = sigKey
    · subst h
      simpa [slotOf, List.replicate_succ] using ih
    · have hc : (k :: ks).count sigKey = ks.count sigKey := by
        simp [List.count_cons, h]
      have hf : (k :: ks).filter (· ≠ sigKey) = k :: ks.filter (· ≠ sigKey) := by
        simp [List.filter_cons, h]
      have hs : slotOf k = k := by simp [slotOf, h]
      rw [List.map_cons, hc, hf, hs]
      exact (ih.cons k).trans List.perm_middle.symm

theorem sortStrings_map_slotOf (keys : List GoString) :
    sortStrings (keys.map slotOf)
      = List.replicate (keys.count sigKey) [] ++ sortStrings (keys.filter (· ≠ sigKey)) := by
  symm
  apply sortStrings_unique
  · exact (List.Perm.append_left _ (List.perm_insertionSort _ _)).trans
      (map_slotOf_perm keys).symm
  · unfold List.Sorted
    rw [List.pairwise_append]
    refine ⟨?_, List.sorted_insertionSort _ _, ?_⟩
    · rw [List.pairwise_replicate]
      exact Or.inr le_rfl
    · intro a ha b _
      rw [List.eq_of_mem_replicate ha]
      exact List.nil_le

/-- What the code signs: the canonical string of the specification, preceded by the value
of the parameter with the empty name, once for every slot of `mk` that the loop left
empty in place of `"s"`. -/
theorem strToSig_eq (query : Values) :
    strToSig query
      = (List.replicate (query.keys.count sigKey) (query.Get [])).flatten
          ++ canonicalString query := by
  unfold strToSig canonicalString
  rw [mkAfterLoop_eq, sortStrings_map_slotOf, foldl_append_eq_flatMap, List.nil_append,
    List.flatMap_append]
  congr 1
  induction query.keys.count sigKey with
  | zero => simp
  | succ n ih => simp [List.replicate_succ, List.flatMap_cons, ih]

/-- The code signs the canonical string of the specification when the query has no
parameter with the empty name, or one whose first value is empty. -/
theorem strToSig_eq_canonicalString (query : Values) (h : query.Get [] = []) :
    strToSig query = canonicalString query := by
  rw [strToSig_eq, h]
  have : ∀ n, (List.replicate n ([] : GoString)).flatten = [] := by
    intro n
    induction n with
    | zero => rfl
    | succ n ih => simp [List.replicate_succ, ih]
  rw [this, List.nil_append]

/-! ## Verification of the signature -/

/-- Under a configured secret, `checkSignature` accepts exactly when `s` has a non-empty
first value and the MAC of `strToSig` equals it. -/
theorem checkSignature_iff (secret : GoString) (query : Values) (hs : secret ≠ []) :
    checkSignature secret query = true ↔
      query.Get sigKey ≠ [] ∧ computeHmac256 (strToSig query) secret = query.Get sigKey := by
  unfold checkSignature
  by_cases h : query.Get sigKey = [] <;> simp [hs, h]

theorem keys_setSig (q : Values) (sig : GoString) : (q.setSig sig).keys = q.keys := by
  unfold Values.setSig Values.keys
  rw [List.map_map]
  apply List.map_congr_left
  intro e _
  by_cases h : e.1 = sigKey <;> simp [h]

theorem setSig_cons (k : GoString) (v : List GoString) (q : Values) (sig : GoString) :
    Values.setSig ((k, v) :: q) sig
      = (if k = sigKey then (k, [sig]) else (k, v)) :: Values.setSig q sig := rfl

theorem lookup_cons_ne {β : Type} (k k' : GoString) (v : β) (l : List (GoString × β))
    (h : k ≠ k') : List.lookup k ((k', v) :: l) = List.lookup k l := by
  have hb : (k == k') = false := by simpa using h
  rw [List.lookup_cons, hb]

theorem lookup_cons_self {β : Type} (k : GoString) (v : β) (l : List (GoString × β)) :
    List.lookup k ((k, v) :: l) = some v := by
  rw [List.lookup_cons, beq_self_eq_true]

theorem lookup_setSig_of_ne (q : Values) (sig k : GoString) (hk : k ≠ sigKey) :
    (q.setSig sig).lookup k = q.lookup k := by
  induction q with
  | nil => rfl
  | cons e q ih =>
    obtain ⟨k', v'⟩ := e
    rw [setSig_cons]
    by_cases h : k' = sigKey
    · rw [if_pos h, lookup_cons_ne k k' _ _ (h ▸ hk), lookup_cons_ne k k' _ _ (h ▸ hk), ih]
    · rw [if_neg h]
      by_cases hkk : k = k'
      · subst hkk
        rw [lookup_cons_self, lookup_cons_self]
      · rw [lookup_cons_ne k k' _ _ hkk, lookup_cons_ne k k' _ _ hkk, ih]

theorem Get_setSig_of_ne (q : Values) (sig k : GoString) (hk : k ≠ sigKey) :
    (q.setSig sig).Get k = q.Get k := by
  unfold Values.Get
  rw [lookup_setSig_of_ne q sig k hk]

theorem Get_setSig_sigKey (q : Values) (sig : GoString) (h : q.Get sigKey ≠ []) :
    (q.setSig sig).Get sigKey = sig := by
  induction q with
  | nil => exact absurd rfl h
  | cons e q ih =>
    obtain ⟨k', v'⟩ := e
    rw [setSig_cons]
    by_cases hk : k' = sigKey
    · subst hk
      rw [if_pos rfl]
      unfold Values.Get
      rw [lookup_cons_self]
    · have hne : sigKey ≠ k' := fun h' => hk h'.symm
      rw [if_neg hk]
      unfold Values.Get at h ih ⊢
      rw [lookup_cons_ne sigKey k' _ _ hne] at h ⊢
      exact ih h

theorem strToSig_setSig (q : Values) (sig : GoString) : strToSig (q.setSig sig) = strToSig q :=
  strToSig_congr (by rw [keys_setSig]) (fun k hk => Get_setSig_of_ne q sig k hk)

/-- C4: signing is opt-in. With the empty secret `checkSignature` returns true for every
query, whatever the value of `s` and whether or not `s` is present. -/
theorem checkSignature_empty_secret (query : Values) : checkSignature [] query = true := by
  simp [checkSignature]

/-- C3: tamper sensitivity. Under a non-empty secret, if a query is accepted, then the
same query with the value of `s` replaced by any other string is rejected; so at most one
signature value is accepted for given parameters and secret. -/
theorem checkSignature_tamper (secret : GoString) (query : Values) (sig : GoString)
    (hs : secret ≠ []) (hok : checkSignature secret query = true)
    (hne : sig ≠ query.Get sigKey) :
    checkSignature secret (query.setSig sig) = false := by
  rw [checkSignature_iff secret query hs] at hok
  rw [Bool.eq_false_iff]
  intro hacc
  rw [checkSignature_iff secret _ hs, strToSig_setSig,
    Get_setSig_sigKey query sig hok.1] at hacc
  exact hne (hacc.2.symm.trans hok.2)

/-- C5: the signing input does not depend on the order in which the map is visited. Two
enumerations of the same query give the same `strToSig` and the same verdict. -/
theorem strToSig_perm (secret : GoString) (q₁ q₂ : Values) (hp : q₁.Perm q₂)
    (nd : q₁.keys.Nodup) :
    strToSig q₁ = strToSig q₂ ∧ checkSignature secret q₁ = checkSignature secret q₂ := by
  have hstr : strToSig q₁ = strToSig q₂ :=
    strToSig_congr (hp.map Prod.fst) (fun k _ => Get_perm hp nd k)
  refine ⟨hstr, ?_⟩
  unfold checkSignature
  rw [hstr, Get_perm hp nd sigKey]

theorem checkSignature_tamper_witness :
    checkSignature sekret loginQuery = true ∧
      checkSignature sekret
        (loginQuery.setSig (str "2vo7W6hQw5YegkoFE78LAmzCPY4GA0Np8jD/3KCzcYZ=")) = false :=
  ⟨by decide,
    checkSignature_tamper sekret loginQuery
      (str "2vo7W6hQw5YegkoFE78LAmzCPY4GA0Np8jD/3KCzcYZ=") (by decide) (by decide) (by decide)⟩

theorem strToSig_perm_witness :
    strToSig loginQuery = strToSig loginQueryReordered ∧
      checkSignature sekret loginQuery = checkSignature sekret loginQueryReordered :=
  strToSig_perm sekret loginQuery loginQueryReordered (by decide) (by decide)

/-- C1, at a failing input: the parameters `=x&a=users&c=login` (no key `s`) signed under
`sekret` as the specification prescribes, over the canonical string `xausersclogin`, are
rejected, because the code signs `xxausersclogin`, whose MAC is another text. -/
theorem checkSignature_roundtrip_empty_name :
    sigKey ∉ emptyNameParams.keys ∧
      canonicalString emptyNameParams = str "xausersclogin" ∧
      Sign emptyNameParams sekret = str "JQwWJz2UFO49KdDj6kJSEejdLf+CU+oepjW2mv+9pPM=" ∧
      strToSig (signedQuery emptyNameParams (Sign emptyNameParams sekret))
        = str "xxausersclogin" ∧
      computeHmac256 (str "xxausersclogin") sekret
        = str "l3UfAgnnKKKn6nWbd7swIzKfI97yOCxWRUFGOu8qp4g=" ∧
      checkSignature sekret (signedQuery emptyNameParams (Sign emptyNameParams sekret))
        = false := by
  decide

/-- C2, at failing inputs: for the query `=x&s=...` under `sekret`, the signature of the
canonical string `x` is present, non-empty and equal to the MAC of the canonical string, and
is rejected; the signature of `xx` is accepted although it differs from that MAC. -/
theorem checkSignature_not_canonical_empty_name :
    ((signedQuery onlyEmptyName (Sign onlyEmptyName sekret)).Get sigKey ≠ [] ∧
      (signedQuery onlyEmptyName (Sign onlyEmptyName sekret)).Get sigKey
        = computeHmac256
            (canonicalString (signedQuery onlyEmptyName (Sign onlyEmptyName sekret))) sekret ∧
      checkSignature sekret (signedQuery onlyEmptyName (Sign onlyEmptyName sekret)) = false) ∧
    (checkSignature sekret
        (signedQuery onlyEmptyName (computeHmac256 (str "xx") sekret)) = true ∧
      (signedQuery onlyEmptyName (computeHmac256 (str "xx") sekret)).Get sigKey
        ≠ computeHmac256
            (canonicalString (signedQuery onlyEmptyName (computeHmac256 (str "xx") sekret)))
            sekret) := by
  decide

/-! ## The MAC is never empty, and the cases in which the code signs the canonical string -/

theorem sha256Round_length (st : List Nat) (kw : Nat × Nat) (h : st.length = 8) :
    (sha256Round st kw).length = 8 := by
  unfold sha256Round
  split
  · rfl
  · exact h

theorem foldl_sha256Round_length (l : List (Nat × Nat)) (st : List Nat) (h : st.length = 8) :
    (l.foldl sha256Round st).length = 8 := by
  induction l generalizing st with
  | nil => exact h
  | cons kw l ih => exact ih _ (sha256Round_length st kw h)

theorem sha256Block_length (h : List Nat) (block : List Nat) (hl : h.length = 8) :
    (sha256Block h block).length = 8 := by
  unfold sha256Block
  simp only [List.length_zipWith, foldl_sha256Round_length _ h hl, hl, min_self]

theorem foldl_sha256Block_length (blocks : List (List Nat)) (h : List Nat)
    (hl : h.length = 8) : (blocks.foldl sha256Block h).length = 8 := by
  induction blocks generalizing h with
  | nil => exact hl
  | cons b blocks ih => exact ih _ (sha256Block_length h b hl)

/-- The digest has 32 bytes. -/
theorem sha256_length (msg : List Nat) : (sha256 msg).length = 32 := by
  unfold sha256
  have h := foldl_sha256Block_length
    (chunks64 (sha256Pad msg).length (sha256Pad msg)) sha256Init rfl
  match hw : (chunks64 (sha256Pad msg).length (sha256Pad msg)).foldl sha256Block sha256Init,
    h with
  | [a, b, c, d, e, f, g, i], _ =>
    show ((List.foldl sha256Block sha256Init
      (chunks64 (sha256Pad msg).length (sha256Pad msg))).flatMap (beBytes 4)).length = 32
    rw [hw]
    rfl

theorem base64Std_ne_nil (l : List Nat) (h : l ≠ []) : base64Std l ≠ [] := by
  match l, h with
  | [a], _ => simp [base64Std]
  | [a, b], _ => simp [base64Std]
  | a :: b :: c :: rest, _ => simp [base64Std]

/-- The text `computeHmac256` returns is never the empty string. -/
theorem computeHmac256_ne_nil (message secret : GoString) :
    computeHmac256 message secret ≠ [] := by
  unfold computeHmac256 hmacSha256
  apply base64Std_ne_nil
  intro h
  have hl := sha256_length
    (List.map (fun x => x ^^^ 0x5c)
        ((if (List.map Fin.val secret).length > 64 then sha256 (List.map Fin.val secret)
          else List.map Fin.val secret) ++
          List.replicate (64 - (if (List.map Fin.val secret).length > 64 then
            sha256 (List.map Fin.val secret) else List.map Fin.val secret).length) 0) ++
      sha256 (List.map (fun x => x ^^^ 0x36)
        ((if (List.map Fin.val secret).length > 64 then sha256 (List.map Fin.val secret)
          else List.map Fin.val secret) ++
          List.replicate (64 - (if (List.map Fin.val secret).length > 64 then
            sha256 (List.map Fin.val secret) else List.map Fin.val secret).length) 0) ++
        List.map Fin.val message))
  rw [h] at hl
  exact absurd hl (by decide)

theorem lookup_signedQuery_of_ne (params : Values) (sig k : GoString) (hk : k ≠ sigKey) :
    (signedQuery params sig).lookup k = params.lookup k := by
  induction params with
  | nil => exact lookup_cons_ne k sigKey _ _ hk
  | cons e params ih =>
    obtain ⟨k', v'⟩ := e
    have hc : signedQuery ((k', v') :: params) sig = (k', v') :: signedQuery params sig := rfl
    rw [hc]
    by_cases hkk : k = k'
    · subst hkk
      rw [lookup_cons_self, lookup_cons_self]
    · rw [lookup_cons_ne k k' _ _ hkk, lookup_cons_ne k k' _ _ hkk, ih]

theorem Get_signedQuery_of_ne (params : Values) (sig k : GoString) (hk : k ≠ sigKey) :
    (signedQuery params sig).Get k = params.Get k := by
  unfold Values.Get
  rw [lookup_signedQuery_of_ne params sig k hk]

theorem Get_signedQuery_sigKey (params : Values) (sig : GoString)
    (h : sigKey ∉ params.keys) : (signedQuery params sig).Get sigKey = sig := by
  induction params with
  | nil => simp [signedQuery, Values.Get, lookup_cons_self]
  | cons e params ih =>
    obtain ⟨k', v'⟩ := e
    have hc : signedQuery ((k', v') :: params) sig = (k', v') :: signedQuery params sig := rfl
    have hmem : sigKey ≠ k' ∧ sigKey ∉ Values.keys params := by
      simpa [Values.keys] using h
    unfold Values.Get at ih ⊢
    rw [hc, lookup_cons_ne sigKey k' _ _ hmem.1]
    exact ih hmem.2

theorem canonicalString_signedQuery (params : Values) (sig : GoString) :
    canonicalString (signedQuery params sig) = canonicalString params := by
  unfold canonicalString
  have hkeys : (signedQuery params sig).keys.filter (· ≠ sigKey)
      = params.keys.filter (· ≠ sigKey) := by
    simp [signedQuery, Values.keys, List.filter_append]
  rw [hkeys]
  apply List.flatMap_congr
  intro k hk
  rw [mem_sortStrings, List.mem_filter] at hk
  rw [Get_signedQuery_of_ne params sig k (by simpa using hk.2)]

/-- Under a configured secret and for a query without a non-empty value under the empty
name, `checkSignature` accepts exactly when `s` has a non-empty first value equal to the
MAC of the canonical string. -/
theorem checkSignature_iff_canonical (secret : GoString) (query : Values) (hs : secret ≠ [])
    (he : query.Get [] = []) :
    checkSignature secret query = true ↔
      query.Get sigKey ≠ [] ∧ query.Get sigKey = computeHmac256 (canonicalString query) secret := by
  rw [checkSignature_iff secret query hs, strToSig_eq_canonicalString query he]
  exact and_congr_right fun _ => eq_comm

/-- Signing as the specification prescribes and verifying succeeds for parameters without
a non-empty value under the empty name. -/
theorem checkSignature_roundtrip (secret : GoString) (params : Values)
    (hs : sigKey ∉ params.keys) (he : params.Get [] = []) :
    checkSignature secret (signedQuery params (Sign params secret)) = true := by
  by_cases hsec : secret = []
  · simp [checkSignature, hsec]
  · have he' : (signedQuery params (Sign params secret)).Get [] = [] := by
      rw [Get_signedQuery_of_ne params _ [] (fun h => sigKey_ne_nil h.symm), he]
    rw [checkSignature_iff_canonical secret _ hsec he', Get_signedQuery_sigKey params _ hs,
      canonicalString_signedQuery]
    exact ⟨computeHmac256_ne_nil _ _, rfl⟩

/-! ## The handler -/

theorem dispatched_append (t₁ t₂ : List Effect) :
    dispatched (t₁ ++ t₂) = dispatched t₁ ++ dispatched t₂ := by
  simp [dispatched, List.filterMap_append]

theorem statuses_append (t₁ t₂ : List Effect) :
    statuses (t₁ ++ t₂) = statuses t₁ ++ statuses t₂ := by
  simp [statuses, List.filterMap_append]

theorem inserts_append (t₁ t₂ : List Effect) :
    inserts (t₁ ++ t₂) = inserts t₁ ++ inserts t₂ := by
  simp [inserts, List.filterMap_append]

theorem cookieWrites_append (t₁ t₂ : List Effect) :
    cookieWrites (t₁ ++ t₂) = cookieWrites t₁ ++ cookieWrites t₂ := by
  simp [cookieWrites, List.filterMap_append]

theorem storeSession_calls (env : Env) (r : Request) :
    (storeSession env r).2 = [Effect.sessionInsert r.userAgent] := by
  unfold storeSession
  cases env.insertResult <;> rfl

theorem getSessionKey_error (env : Env) (r : Request) (hs : r.session = none) :
    getSessionKey env r = (some [], [Effect.sessionGet]) := by
  simp [getSessionKey, hs]

theorem getSessionKey_found (env : Env) (r : Request) (values : SessionValues)
    (key : GoString) (hs : r.session = some values)
    (hk : values.lookup sessionKeyName = some (Iface.string key)) :
    getSessionKey env r = (some key, [Effect.sessionGet]) := by
  simp [getSessionKey, hs, hk]

theorem getSessionKey_not_string (env : Env) (r : Request) (values : SessionValues)
    (hs : r.session = some values) (hk : values.lookup sessionKeyName = some Iface.other) :
    getSessionKey env r = (none, [Effect.sessionGet]) := by
  simp [getSessionKey, hs, hk]

theorem getSessionKey_new (env : Env) (r : Request) (values : SessionValues)
    (hs : r.session = some values) (hk : values.lookup sessionKeyName = none) :
    getSessionKey env r =
      (some (storeSession env r).1,
        [Effect.sessionGet, Effect.sessionInsert r.userAgent,
          Effect.sessionSave
            (values.set sessionKeyName (Iface.string (storeSession env r).1))]) := by
  simp [getSessionKey, hs, hk, storeSession_calls]

/-- The calls of `getSessionKey`: the cookie read alone, or the cookie read, one session
insert and one cookie write. -/
theorem getSessionKey_calls (env : Env) (r : Request) :
    (getSessionKey env r).2 = [Effect.sessionGet] ∨
      ∃ saved, (getSessionKey env r).2
        = [Effect.sessionGet, Effect.sessionInsert r.userAgent, Effect.sessionSave saved] := by
  rcases hs : r.session with _ | values
  · rw [getSessionKey_error env r hs]
    exact Or.inl rfl
  · rcases hk : values.lookup sessionKeyName with _ | v
    · rw [getSessionKey_new env r values hs hk]
      exact Or.inr ⟨_, rfl⟩
    · cases v with
      | string key =>
        rw [getSessionKey_found env r values key hs hk]
        exact Or.inl rfl
      | other =>
        rw [getSessionKey_not_string env r values hs hk]
        exact Or.inl rfl

theorem dispatched_getSessionKey (env : Env) (r : Request) :
    dispatched (getSessionKey env r).2 = [] := by
  rcases getSessionKey_calls env r with h | ⟨saved, h⟩ <;> rw [h] <;> rfl

theorem statuses_getSessionKey (env : Env) (r : Request) :
    statuses (getSessionKey env r).2 = [] := by
  rcases getSessionKey_calls env r with h | ⟨saved, h⟩ <;> rw [h] <;> rfl

/-- The handler on a request that passes the signature check and whose session
resolution returns `key`. -/
theorem TrackEvent_accepted (env : Env) (r : Request) (key : GoString)
    (hsig : checkSignature env.secret r.query = true)
    (hkey : (getSessionKey env r).1 = some key) :
    TrackEvent env r =
      ⟨(getSessionKey env r).2
        ++ (if key ≠ [] then
              [Effect.goStoreEvent ⟨key, r.query.Get (str "c"), r.query.Get (str "a")⟩]
            else [])
        ++ (if env.allowedOrigin ≠ [] then
              [Effect.headerSet (str "Access-Control-Allow-Origin") env.allowedOrigin,
               Effect.headerSet (str "Access-Control-Allow-Credentials") (str "true"),
               Effect.headerSet (str "Vary") (str "Origin")]
            else [])
        ++ [Effect.writeHeader 200], false⟩ := by
  unfold TrackEvent
  rcases hg : getSessionKey env r with ⟨res, calls⟩
  rw [hg] at hkey
  simp only at hkey
  subst hkey
  simp [hsig]

/-- The handler on a request that passes the signature check and whose session
resolution panics. -/
theorem TrackEvent_panic (env : Env) (r : Request)
    (hsig : checkSignature env.secret r.query = true)
    (hkey : (getSessionKey env r).1 = none) :
    TrackEvent env r = ⟨(getSessionKey env r).2, true⟩ := by
  unfold TrackEvent
  rcases hg : getSessionKey env r with ⟨res, calls⟩
  rw [hg] at hkey
  simp only at hkey
  subst hkey
  simp [hsig]

/-- The handler on a request that fails the signature check. -/
theorem TrackEvent_of_rejected (env : Env) (r : Request)
    (h : checkSignature env.secret r.query = false) :
    TrackEvent env r = ⟨[Effect.writeHeader 403], false⟩ := by
  simp [TrackEvent, h]

/-- The events the handler dispatches. -/
theorem dispatched_TrackEvent (env : Env) (r : Request) :
    dispatched (TrackEvent env r).trace =
      if checkSignature env.secret r.query = true then
        match (getSessionKey env r).1 with
        | some key =>
          if key ≠ [] then [⟨key, r.query.Get (str "c"), r.query.Get (str "a")⟩] else []
        | none => []
      else [] := by
  by_cases hsig : checkSignature env.secret r.query = true
  · rw [if_pos hsig]
    cases hkey : (getSessionKey env r).1 with
    | none =>
      rw [TrackEvent_panic env r hsig hkey]
      exact dispatched_getSessionKey env r
    | some key =>
      rw [TrackEvent_accepted env r key hsig hkey]
      simp only [dispatched_append, dispatched_getSessionKey]
      by_cases hk : key = [] <;> by_cases ho : env.allowedOrigin = [] <;>
        simp [hk, ho, dispatched]
  · rw [if_neg hsig, TrackEvent_of_rejected env r (by simpa using hsig)]
    rfl

/-- C6: rejection has no other effect. When `checkSignature` returns false the handler
makes one call only, `WriteHeader(403)`: it does not read the cookie, inserts no session,
writes no cookie, dispatches no event and sets no header. -/
theorem TrackEvent_rejected (env : Env) (r : Request)
    (h : checkSignature env.secret r.query = false) :
    TrackEvent env r = ⟨[Effect.writeHeader 403], false⟩ ∧
      statuses (TrackEvent env r).trace = [403] ∧
      Effect.sessionGet ∉ (TrackEvent env r).trace ∧
      inserts (TrackEvent env r).trace = [] ∧
      cookieWrites (TrackEvent env r).trace = [] ∧
      dispatched (TrackEvent env r).trace = [] ∧
      ∀ key value, Effect.headerSet key value ∉ (TrackEvent env r).trace := by
  rw [TrackEvent_of_rejected env r h]
  refine ⟨rfl, rfl, by simp, rfl, rfl, rfl, by simp⟩

theorem TrackEvent_rejected_witness :
    TrackEvent sekretEnv unsignedRequest = ⟨[Effect.writeHeader 403], false⟩ ∧
      statuses (TrackEvent sekretEnv unsignedRequest).trace = [403] ∧
      Effect.sessionGet ∉ (TrackEvent sekretEnv unsignedRequest).trace ∧
      inserts (TrackEvent sekretEnv unsignedRequest).trace = [] ∧
      cookieWrites (TrackEvent sekretEnv unsignedRequest).trace = [] ∧
      dispatched (TrackEvent sekretEnv unsignedRequest).trace = [] ∧
      ∀ key value, Effect.headerSet key value ∉ (TrackEvent sekretEnv unsignedRequest).trace :=
  TrackEvent_rejected sekretEnv unsignedRequest (by decide)

/-- C7: event gating. The handler dispatches an event exactly when `checkSignature`
returned true and `getSessionKey` returned a non-empty string; it dispatches at most one;
the event carries that identifier, and the first values of `c` and `a` (empty when
absent). -/
theorem TrackEvent_event_gating (env : Env) (r : Request) :
    (∀ ev, ev ∈ dispatched (TrackEvent env r).trace ↔
      (checkSignature env.secret r.query = true ∧
        ∃ key, (getSessionKey env r).1 = some key ∧ key ≠ [] ∧
          ev = ⟨key, r.query.Get (str "c"), r.query.Get (str "a")⟩)) ∧
    (dispatched (TrackEvent env r).trace).length ≤ 1 := by
  rw [dispatched_TrackEvent]
  by_cases hsig : checkSignature env.secret r.query = true
  · rw [if_pos hsig]
    cases hkey : (getSessionKey env r).1 with
    | none => simp [hsig]
    | some key =>
      by_cases hk : key = []
      · simp [hsig, hk]
      · simp only [hsig, ne_eq, hk, not_false_eq_true, if_true, List.mem_singleton,
          true_and, List.length_singleton, le_refl, and_true, Option.some.injEq]
        intro ev
        constructor
        · intro h
          exact ⟨key, rfl, hk, h⟩
        · rintro ⟨k, rfl, _, h⟩
          exact h
  · simp [hsig]

theorem statuses_TrackEvent (env : Env) (r : Request) :
    statuses (TrackEvent env r).trace =
      if checkSignature env.secret r.query = true then
        match (getSessionKey env r).1 with
        | some _ => [200]
        | none => []
      else [403] := by
  by_cases hsig : checkSignature env.secret r.query = true
  · rw [if_pos hsig]
    cases hkey : (getSessionKey env r).1 with
    | none =>
      rw [TrackEvent_panic env r hsig hkey]
      exact statuses_getSessionKey env r
    | some key =>
      rw [TrackEvent_accepted env r key hsig hkey]
      simp only [statuses_append, statuses_getSessionKey]
      by_cases hk : key = [] <;> by_cases ho : env.allowedOrigin = [] <;>
        simp [hk, ho, statuses]
  · rw [if_neg hsig, TrackEvent_of_rejected env r (by simpa using hsig)]
    rfl

theorem inserts_TrackEvent (env : Env) (r : Request) :
    inserts (TrackEvent env r).trace =
      if checkSignature env.secret r.query = true then inserts (getSessionKey env r).2
      else [] := by
  by_cases hsig : checkSignature env.secret r.query = true
  · rw [if_pos hsig]
    cases hkey : (getSessionKey env r).1 with
    | none => rw [TrackEvent_panic env r hsig hkey]
    | some key =>
      rw [TrackEvent_accepted env r key hsig hkey]
      simp only [inserts_append]
      by_cases hk : key = [] <;> by_cases ho : env.allowedOrigin = [] <;>
        simp [hk, ho, inserts]
  · rw [if_neg hsig, TrackEvent_of_rejected env r (by simpa using hsig)]
    rfl

theorem cookieWrites_TrackEvent (env : Env) (r : Request) :
    cookieWrites (TrackEvent env r).trace =
      if checkSignature env.secret r.query = true then cookieWrites (getSessionKey env r).2
      else [] := by
  by_cases hsig : checkSignature env.secret r.query = true
  · rw [if_pos hsig]
    cases hkey : (getSessionKey env r).1 with
    | none => rw [TrackEvent_panic env r hsig hkey]
    | some key =>
      rw [TrackEvent_accepted env r key hsig hkey]
      simp only [cookieWrites_append]
      by_cases hk : key = [] <;> by_cases ho : env.allowedOrigin = [] <;>
        simp [hk, ho, cookieWrites]
  · rw [if_neg hsig, TrackEvent_of_rejected env r (by simpa using hsig)]
    rfl

theorem lookup_set (values : SessionValues) (key : GoString) (val : Iface) :
    (values.set key val).lookup key = some val := by
  unfold SessionValues.set
  exact lookup_cons_self key val _

/-- C8: session resolution is idempotent. When the cookie decodes and carries a string
`session_key`, `getSessionKey` returns it verbatim and only reads the cookie (no insert, no
cookie write). Hence, after a resolution without `session_key` whose insert returned `id`
and which saved a cookie holding the text of `id`, resolving with the saved cookie returns
the same identifier and only reads the cookie. -/
theorem getSessionKey_idempotent (env : Env) (r : Request) (values : SessionValues)
    (hs : r.session = some values) :
    (∀ key, values.lookup sessionKeyName = some (Iface.string key) →
      getSessionKey env r = (some key, [Effect.sessionGet])) ∧
    (∀ id, values.lookup sessionKeyName = none → env.insertResult = some id →
      getSessionKey env r =
          (some (formatInt id),
            [Effect.sessionGet, Effect.sessionInsert r.userAgent,
              Effect.sessionSave
                (values.set sessionKeyName (Iface.string (formatInt id)))]) ∧
        ∀ (env₂ : Env) (r₂ : Request),
          r₂.session = some (values.set sessionKeyName (Iface.string (formatInt id))) →
            getSessionKey env₂ r₂ = (some (formatInt id), [Effect.sessionGet])) := by
  refine ⟨fun key hk => getSessionKey_found env r values key hs hk, ?_⟩
  intro id hk hi
  have hst : (storeSession env r).1 = formatInt id := by simp [storeSession, hi]
  refine ⟨?_, ?_⟩
  · rw [getSessionKey_new env r values hs hk, hst]
  · intro env₂ r₂ hs₂
    exact getSessionKey_found env₂ r₂ _ _ hs₂ (lookup_set _ _ _)

theorem getSessionKey_idempotent_witness :
    getSessionKey openEnv returningRequest = (some (str "42"), [Effect.sessionGet]) ∧
    (getSessionKey openEnv unsignedRequest =
        (some (formatInt 42),
          [Effect.sessionGet, Effect.sessionInsert unsignedRequest.userAgent,
            Effect.sessionSave
              (SessionValues.set [] sessionKeyName (Iface.string (formatInt 42)))]) ∧
      ∀ (env₂ : Env) (r₂ : Request),
        r₂.session = some (SessionValues.set [] sessionKeyName (Iface.string (formatInt 42))) →
          getSessionKey env₂ r₂ = (some (formatInt 42), [Effect.sessionGet])) :=
  ⟨(getSessionKey_idempotent openEnv returningRequest _ rfl).1 (str "42") (by decide),
    (getSessionKey_idempotent openEnv unsignedRequest [] rfl).2 42 (by decide) rfl⟩

/-- C9: a failed session insert degrades silently. When the request passes
`checkSignature`, its cookie carries no `session_key` and the insert fails, `storeSession`
and `getSessionKey` return the empty string, no event is dispatched, and the status
written is 200. For every request, the statuses the handler writes are among 403 and 200. -/
theorem TrackEvent_insert_failure (env : Env) (r : Request) (values : SessionValues)
    (hsig : checkSignature env.secret r.query = true) (hs : r.session = some values)
    (hk : values.lookup sessionKeyName = none) (hi : env.insertResult = none) :
    (storeSession env r).1 = [] ∧ (getSessionKey env r).1 = some [] ∧
      dispatched (TrackEvent env r).trace = [] ∧
      statuses (TrackEvent env r).trace = [200] ∧
      (TrackEvent env r).panicked = false ∧
      ∀ (env₂ : Env) (r₂ : Request) (st : Nat),
        st ∈ statuses (TrackEvent env₂ r₂).trace → st = 403 ∨ st = 200 := by
  have hst : (storeSession env r).1 = [] := by simp [storeSession, hi]
  have hkey : (getSessionKey env r).1 = some [] := by
    rw [getSessionKey_new env r values hs hk, hst]
  refine ⟨hst, hkey, ?_, ?_, ?_, ?_⟩
  · rw [dispatched_TrackEvent, if_pos hsig, hkey]
    simp
  · rw [statuses_TrackEvent, if_pos hsig, hkey]
  · rw [TrackEvent_accepted env r [] hsig hkey]
  · intro env₂ r₂ st hst₂
    rw [statuses_TrackEvent] at hst₂
    by_cases h₂ : checkSignature env₂.secret r₂.query = true
    · rw [if_pos h₂] at hst₂
      cases hk₂ : (getSessionKey env₂ r₂).1 with
      | none => rw [hk₂] at hst₂; simp at hst₂
      | some key => rw [hk₂] at hst₂; exact Or.inr (by simpa using hst₂)
    · rw [if_neg h₂] at hst₂
      exact Or.inl (by simpa using hst₂)

theorem TrackEvent_insert_failure_witness :
    (storeSession failingEnv unsignedRequest).1 = [] ∧
      (getSessionKey failingEnv unsignedRequest).1 = some [] ∧
      dispatched (TrackEvent failingEnv unsignedRequest).trace = [] ∧
      statuses (TrackEvent failingEnv unsignedRequest).trace = [200] ∧
      (TrackEvent failingEnv unsignedRequest).panicked = false ∧
      ∀ (env₂ : Env) (r₂ : Request) (st : Nat),
        st ∈ statuses (TrackEvent env₂ r₂).trace → st = 403 ∨ st = 200 :=
  TrackEvent_insert_failure failingEnv unsignedRequest [] (by decide) rfl (by decide) rfl

/-- C10: a failed session insert is sticky. When the cookie carries no `session_key` and
the insert fails, `getSessionKey` still saves a cookie with `session_key = ""`; on every
later request with that cookie it returns `""` after reading the cookie only, and the
handler makes no session insert, dispatches no event and does not write the cookie
again, whatever the database would answer. -/
theorem failed_insert_sticky (env : Env) (r : Request) (values : SessionValues)
    (hs : r.session = some values) (hk : values.lookup sessionKeyName = none)
    (hi : env.insertResult = none) :
    getSessionKey env r =
        (some [],
          [Effect.sessionGet, Effect.sessionInsert r.userAgent,
            Effect.sessionSave (values.set sessionKeyName (Iface.string []))]) ∧
      ∀ (env₂ : Env) (r₂ : Request),
        r₂.session = some (values.set sessionKeyName (Iface.string [])) →
          getSessionKey env₂ r₂ = (some [], [Effect.sessionGet]) ∧
            inserts (TrackEvent env₂ r₂).trace = [] ∧
            dispatched (TrackEvent env₂ r₂).trace = [] ∧
            cookieWrites (TrackEvent env₂ r₂).trace = [] := by
  have hst : (storeSession env r).1 = [] := by simp [storeSession, hi]
  refine ⟨by rw [getSessionKey_new env r values hs hk, hst], ?_⟩
  intro env₂ r₂ hs₂
  have hg : getSessionKey env₂ r₂ = (some [], [Effect.sessionGet]) :=
    getSessionKey_found env₂ r₂ _ _ hs₂ (lookup_set _ _ _)
  refine ⟨hg, ?_, ?_, ?_⟩
  · rw [inserts_TrackEvent, hg]
    split <;> rfl
  · rw [dispatched_TrackEvent, hg]
    split <;> simp
  · rw [cookieWrites_TrackEvent, hg]
    split <;> rfl

theorem failed_insert_sticky_witness :
    getSessionKey failingEnv unsignedRequest =
        (some [],
          [Effect.sessionGet, Effect.sessionInsert unsignedRequest.userAgent,
            Effect.sessionSave (SessionValues.set [] sessionKeyName (Iface.string []))]) ∧
      ∀ (env₂ : Env) (r₂ : Request),
        r₂.session = some (SessionValues.set [] sessionKeyName (Iface.string [])) →
          getSessionKey env₂ r₂ = (some [], [Effect.sessionGet]) ∧
            inserts (TrackEvent env₂ r₂).trace = [] ∧
            dispatched (TrackEvent env₂ r₂).trace = [] ∧
            cookieWrites (TrackEvent env₂ r₂).trace = [] :=
  failed_insert_sticky failingEnv unsignedRequest [] rfl (by decide) rfl

/-! ## Scenarios of the specification -/

/-- Without secret, `/track?c=user&a=login` without cookie: one session insert, a cookie
holding the new identifier, one event `user`/`login`, the three CORS headers of the
configured origin, status 200. -/
theorem scenario_first_visit :
    TrackEvent openEnv unsignedRequest =
      ⟨[Effect.sessionGet, Effect.sessionInsert (str "Mozilla/5.0"),
        Effect.sessionSave [(sessionKeyName, Iface.string (str "42"))],
        Effect.goStoreEvent ⟨str "42", str "user", str "login"⟩,
        Effect.headerSet (str "Access-Control-Allow-Origin") (str "https://example.com"),
        Effect.headerSet (str "Access-Control-Allow-Credentials") (str "true"),
        Effect.headerSet (str "Vary") (str "Origin"),
        Effect.writeHeader 200], false⟩ := by
  decide

/-- With the secret `sekret`, the query whose canonical string is `ausersclogin`, signed
correctly, is answered with status 200 and no CORS header. -/
theorem scenario_signed_request :
    strToSig loginQuery = str "ausersclogin" ∧
      TrackEvent sekretEnv ⟨loginQuery, str "Mozilla/5.0", some []⟩ =
        ⟨[Effect.sessionGet, Effect.sessionInsert (str "Mozilla/5.0"),
          Effect.sessionSave [(sessionKeyName, Iface.string (str "42"))],
          Effect.goStoreEvent ⟨str "42", str "login", str "users"⟩,
          Effect.writeHeader 200], false⟩ := by
  decide

end Risa
